import Mathlib

set_option linter.unusedVariables false

/-! Shallow embedding of the rust-http-server request parser and response
serializer.  The `parse_*` functions model the character-stream
`RequestParser` of `src/http.rs`; `HttpVersion.from_str`, the status-code
table and `serializeResponse` model `src/models/mod.rs`,
`src/models/request.rs` and `src/models/response.rs`.  Rust strings and the
`Peekable<Chars>` iterator are modelled as `List Char`. -/

deriving instance DecidableEq for Except

/-- Parse errors of `src/http.rs` (`enum Error`). -/
inductive Error where
  | InvalidMethod (s : String)
  | FailedToParseHead
  | FailedToParseVersion
  | ParseIntError
  | FailedToParseHeaders
  | FailedToParseBody
deriving DecidableEq, Repr

/-- HTTP methods (`enum HttpMethod`, identical in `src/http.rs` and
`src/models/request.rs`). -/
inductive HttpMethod where
  | GET
  | HEAD
  | POST
  | PUT
  | DELETE
  | CONNECT
  | OPTIONS
  | TRACE
  | PATCH
deriving DecidableEq, Repr

/-- `HttpVersion`: a pair of numbers (`usize` fields in `src/http.rs`, `u32`
fields in `src/models`); the width only matters for overflow checks, which
live in the parsing functions. -/
structure HttpVersion where
  major : Nat
  minor : Nat
deriving DecidableEq, Repr

/-- Header maps: Rust `HashMap<String, String>` modelled as an association
list whose `insertH` replaces the value of an existing key, as
`HashMap::insert` does. -/
abbrev Headers : Type := List (String × String)

/-- `HashMap::insert` on the association-list model: overwrite the entry of
an existing key, otherwise append. -/
def insertH (k v : String) : Headers → Headers
  | [] => [(k, v)]
  | (k₀, v₀) :: rest => if k₀ = k then (k, v) :: rest else (k₀, v₀) :: insertH k v rest

/-- `HashMap::get` on the association-list model. -/
def lookupH (k : String) : Headers → Option String
  | [] => none
  | (k₀, v₀) :: rest => if k₀ = k then some v₀ else lookupH k rest

/-- `struct HttpRequest` of `src/http.rs`. -/
structure HttpRequest where
  method : HttpMethod
  path : String
  http_version : HttpVersion
  headers : Headers
  body : String
deriving DecidableEq, Repr

/-- `HttpMethod::from_str`: match the token against the nine literal method
names, otherwise `InvalidMethod` carrying the token. -/
def HttpMethod.from_str (s : String) : Except Error HttpMethod :=
  if s = "GET" then .ok .GET
  else if s = "HEAD" then .ok .HEAD
  else if s = "POST" then .ok .POST
  else if s = "PUT" then .ok .PUT
  else if s = "DELETE" then .ok .DELETE
  else if s = "CONNECT" then .ok .CONNECT
  else if s = "OPTIONS" then .ok .OPTIONS
  else if s = "TRACE" then .ok .TRACE
  else if s = "PATCH" then .ok .PATCH
  else .error (.InvalidMethod s)

/-- Rust `char::is_ascii_uppercase`. -/
def isAsciiUppercase (c : Char) : Bool := 'A' ≤ c && c ≤ 'Z'

/-- Rust `char::is_digit(10)`. -/
def isAsciiDigit (c : Char) : Bool := '0' ≤ c && c ≤ '9'

/-- The `while self.characters.peek().is_some_and(p) { push(next()) }`
pattern of the source loops: the collected run and the remaining input. -/
def read_while (p : Char → Bool) : List Char → List Char × List Char
  | [] => ([], [])
  | c :: cs =>
    if p c then
      let r := read_while p cs
      (c :: r.1, r.2)
    else ([], c :: cs)

/-- `RequestParser::match_str`: consume `pat` character by character; on the
first mismatch stop and report failure (the mismatching character stays,
already-matched ones are consumed — every caller aborts on failure). -/
def match_str (pat : List Char) (cs : List Char) : Bool × List Char :=
  match pat, cs with
  | [], rest => (true, rest)
  | _ :: _, [] => (false, [])
  | p :: ps, c :: rest => if c = p then match_str ps rest else (false, c :: rest)

/-- `RequestParser::skip_spaces`. -/
def skip_spaces (cs : List Char) : List Char := cs.dropWhile (fun c => c == ' ')

/-- Decimal value of a digit run, accumulated exactly as
`from_str_radix(.., 10)` / `u32::from_str` accumulate. -/
def digitsVal (ds : List Char) : Nat := ds.foldl (fun a c => 10 * a + (c.toNat - 48)) 0

/-- `RequestParser::parse_usize`: maximal digit run, then
`usize::from_str_radix(.., 10)` — error on an empty run or on overflow of the
64-bit `usize`. -/
def parse_usize (cs : List Char) : Except Error (Nat × List Char) :=
  let r := read_while isAsciiDigit cs
  if r.1.isEmpty then .error .ParseIntError
  else if digitsVal r.1 < 2 ^ 64 then .ok (digitsVal r.1, r.2)
  else .error .ParseIntError

/-- `RequestParser::parse_method`: maximal ASCII-uppercase run, skip spaces,
then `HttpMethod::from_str`. -/
def parse_method (cs : List Char) : Except Error (HttpMethod × List Char) :=
  let r := read_while isAsciiUppercase cs
  (HttpMethod.from_str (String.mk r.1)).map (fun m => (m, skip_spaces r.2))

/-- `RequestParser::parse_path`: maximal run of non-space characters, then
skip spaces; never fails. -/
def parse_path (cs : List Char) : Except Error (String × List Char) :=
  let r := read_while (fun c => c != ' ') cs
  .ok (String.mk r.1, skip_spaces r.2)

/-- `RequestParser::parse_version`: literal `"HTTP/"`, a digit run as major,
a mandatory `"."`, and a digit run as minor. -/
def parse_version (cs : List Char) : Except Error (HttpVersion × List Char) :=
  let m1 := match_str "HTTP/".data cs
  if !m1.1 then .error .FailedToParseVersion
  else
    match parse_usize m1.2 with
    | .error e => .error e
    | .ok (major, cs1) =>
      let m2 := match_str ".".data cs1
      if !m2.1 then .error .FailedToParseVersion
      else
        match parse_usize m2.2 with
        | .error e => .error e
        | .ok (minor, cs2) => .ok (⟨major, minor⟩, cs2)

/-- `RequestParser::parse_header`: key is everything up to `':'`, then the
literal `": "`, then a value stopping at `'\r'`/`'\n'`, then `"\r\n"`. -/
def parse_header (cs : List Char) : Except Error ((String × String) × List Char) :=
  let key := read_while (fun c => c != ':') cs
  let m1 := match_str ": ".data key.2
  if !m1.1 then .error .FailedToParseHeaders
  else
    let val := read_while (fun c => c != '\r' && c != '\n') m1.2
    let m2 := match_str "\r\n".data val.2
    if !m2.1 then .error .FailedToParseHeaders
    else .ok ((String.mk key.1, String.mk val.1), m2.2)

theorem read_while_eq (p : Char → Bool) (cs : List Char) :
    read_while p cs = (cs.takeWhile p, cs.dropWhile p) := by
  induction cs with
  | nil => rfl
  | cons c cs ih =>
    simp only [read_while, List.takeWhile, List.dropWhile]
    cases h : p c <;> simp [ih]

theorem match_str_ok (pat cs cs' : List Char) (h : match_str pat cs = (true, cs')) :
    cs = pat ++ cs' := by
  induction pat generalizing cs with
  | nil => simpa [match_str] using h
  | cons p ps ih =>
    match cs with
    | [] => simp [match_str] at h
    | c :: rest =>
      by_cases hc : c = p
      · subst hc
        simp only [match_str, if_pos rfl] at h
        simpa using ih rest h
      · simp [match_str, hc] at h

theorem match_str_of_app (pat rest : List Char) :
    match_str pat (pat ++ rest) = (true, rest) := by
  induction pat with
  | nil => rfl
  | cons p ps ih => simp [match_str, ih]

theorem length_dropWhile_le (p : Char → Bool) (cs : List Char) :
    (cs.dropWhile p).length ≤ cs.length := by
  induction cs with
  | nil => simp [List.dropWhile]
  | cons c cs ih =>
    simp only [List.dropWhile]
    cases p c with
    | false => simp
    | true => simp; omega

theorem parse_header_len {cs : List Char} {kv : String × String} {cs' : List Char}
    (h : parse_header cs = .ok (kv, cs')) : cs'.length < cs.length := by
  simp only [parse_header, read_while_eq] at h
  rcases hm1 : match_str ": ".data (cs.dropWhile fun c => c != ':') with ⟨b1, cs2⟩
  rw [hm1] at h
  cases b1 with
  | false => simp at h
  | true =>
    simp only [Bool.not_true, Bool.false_eq_true, if_false, read_while_eq] at h
    rcases hm2 : match_str "\r\n".data (cs2.dropWhile fun c => c != '\r' && c != '\n') with ⟨b2, cs3⟩
    rw [hm2] at h
    cases b2 with
    | false => simp at h
    | true =>
      simp only [Bool.not_true, Bool.false_eq_true, if_false, Except.ok.injEq, Prod.mk.injEq] at h
      have h1 := match_str_ok _ _ _ hm1
      have h2 := match_str_ok _ _ _ hm2
      have l1 : (cs.dropWhile fun c => c != ':').length ≤ cs.length :=
        length_dropWhile_le _ cs
      have l2 : (cs2.dropWhile fun c => c != '\r' && c != '\n').length ≤ cs2.length :=
        length_dropWhile_le _ cs2
      have e1 : (cs.dropWhile fun c => c != ':').length = 2 + cs2.length := by
        rw [h1]; simp; omega
      have e2 : (cs2.dropWhile fun c => c != '\r' && c != '\n').length = 2 + cs3.length := by
        rw [h2]; simp; omega
      rcases h with ⟨-, rfl⟩
      omega

/-- The loop of `RequestParser::parse_headers`: keep parsing header lines
while the next character exists and is neither `'\r'` nor `'\n'`, inserting
each pair into the map. -/
def parse_headers_loop (hs : Headers) (cs : List Char) :
    Except Error (Headers × List Char) :=
  match cs with
  | [] => .ok (hs, [])
  | c :: rest =>
    if c = '\r' ∨ c = '\n' then .ok (hs, c :: rest)
    else
      match hp : parse_header (c :: rest) with
      | .error e => .error e
      | .ok ((k, v), cs') => parse_headers_loop (insertH k v hs) cs'
termination_by cs.length
decreasing_by exact parse_header_len hp

/-- `RequestParser::parse_headers`: start from the empty map. -/
def parse_headers (cs : List Char) : Except Error (Headers × List Char) :=
  parse_headers_loop [] cs

/-- `RequestParser::parse_body`: if input remains it must start with
`"\r\n"`, and everything after it is the body; otherwise the body is `""`. -/
def parse_body (cs : List Char) : Except Error (String × List Char) :=
  match cs with
  | [] => .ok ("", [])
  | c :: rest =>
    let m := match_str "\r\n".data (c :: rest)
    if !m.1 then .error .FailedToParseBody
    else .ok (String.mk m.2, [])

/-- `RequestParser::parse_request` (also `HttpRequest::from_str`):
method, path, version, `"\r\n"`, headers, body. -/
def parse_request (cs : List Char) : Except Error HttpRequest :=
  match parse_method cs with
  | .error e => .error e
  | .ok (method, cs1) =>
    match parse_path cs1 with
    | .error e => .error e
    | .ok (path, cs2) =>
      match parse_version cs2 with
      | .error e => .error e
      | .ok (ver, cs3) =>
        let mh := match_str "\r\n".data cs3
        if !mh.1 then .error .FailedToParseHead
        else
          match parse_headers mh.2 with
          | .error e => .error e
          | .ok (headers, cs4) =>
            match parse_body cs4 with
            | .error e => .error e
            | .ok (body, _) => .ok ⟨method, path, ver, headers, body⟩

/-- Parse errors of `src/models/request.rs` (`enum ParseRequestErr`). -/
inductive ParseRequestErr where
  | InvalidMethod (s : String)
  | InvalidVersion (s : String)
  | InvalidRequestHead (s : String)
  | InvalidHeader (s : String)
  | UnexpectedEndOfInput
  | ParseIntError
deriving DecidableEq, Repr

/-- Decimal digits of `n`, most significant first: the rendering of
`write!(f, "{}", n)` for an unsigned integer. -/
def natDigits (n : Nat) : List Char :=
  if h : n < 10 then [Nat.digitChar n]
  else natDigits (n / 10) ++ [Nat.digitChar (n % 10)]
decreasing_by exact Nat.div_lt_self (by omega) (by omega)

/-- Rust `str::split(".")` on the character-list model: split at every
`'.'`; always yields at least one (possibly empty) piece. -/
def splitOnDot : List Char → List (List Char)
  | [] => [[]]
  | c :: cs =>
    if c = '.' then [] :: splitOnDot cs
    else
      match splitOnDot cs with
      | [] => [[c]]
      | h :: t => (c :: h) :: t

/-- `u32::from_str` (used by `str::parse::<u32>()` in the version parser):
an optional leading `'+'`, then a nonempty digit run, rejecting overflow
past 32 bits. -/
def parseU32 (s : List Char) : Except ParseRequestErr Nat :=
  let ds := match s with
            | c :: rest => if c = '+' then rest else c :: rest
            | [] => []
  if ds.isEmpty then .error .ParseIntError
  else if !ds.all isAsciiDigit then .error .ParseIntError
  else if digitsVal ds < 2 ^ 32 then .ok (digitsVal ds)
  else .error .ParseIntError

/-- `HttpVersion::from_str` of `src/models/mod.rs` (identical copy in
`src/models/request.rs`): require the literal `"HTTP/"`, split the rest on
`"."`, parse the first piece as major and the second (when present) as
minor, minor defaulting to 0; later pieces are never looked at. -/
def HttpVersion.from_str (s : List Char) : Except ParseRequestErr HttpVersion :=
  if s.take 5 = "HTTP/".data then
    match splitOnDot (s.drop 5) with
    | [] => .error (.InvalidVersion (String.mk s))
    | majorStr :: rest =>
      match parseU32 majorStr with
      | .error e => .error e
      | .ok major =>
        match rest with
        | [] => .ok ⟨major, 0⟩
        | minorStr :: _ =>
          match parseU32 minorStr with
          | .error e => .error e
          | .ok minor => .ok ⟨major, minor⟩
  else .error (.InvalidVersion (String.mk s))

/-- `impl Display for HttpVersion`: `"HTTP/{major}"`, then `".{minor}"` only
when `minor > 0`. -/
def HttpVersion.display (v : HttpVersion) : List Char :=
  "HTTP/".data ++ natDigits v.major ++ (if 0 < v.minor then '.' :: natDigits v.minor else [])

/-- `enum HttpStatusCode` of `src/models/response.rs` (63 variants, each
with its numeric discriminant). -/
inductive HttpStatusCode where
  | Continue
  | SwitchingProtocols
  | Processing
  | EarlyHints
  | OK
  | Created
  | Accepted
  | NonAuthoritativeInformation
  | NoContent
  | ResetContent
  | PartialContent
  | MultiStatus
  | AlreadyReported
  | ImUsed
  | MultipleChoices
  | MovedPermanently
  | Found
  | SeeOther
  | NotModified
  | UseProxy
  | Unused
  | TemporaryRedirect
  | PermanentRedirect
  | BadRequest
  | Unauthorized
  | PaymentRequired
  | Forbidden
  | NotFound
  | MethodNotAllowed
  | NotAcceptable
  | ProxyAuthenticationRequired
  | RequestTimeout
  | Conflict
  | Gone
  | LengthRequired
  | PreconditionFailed
  | ContentTooLarge
  | UriTooLong
  | UnsupportedMediaType
  | RangeNotSatisfiable
  | ExpectationFailed
  | ImATeapot
  | MisdirectedRequest
  | UnprocessableContent
  | Locked
  | FailedDependency
  | TooEarly
  | UpgradeRequired
  | PreconditionRequired
  | TooManyRequests
  | RequestHeaderFieldsTooLarge
  | UnavailableForLegalReasons
  | InternalServerError
  | NotImplemented
  | BadGateway
  | ServiceUnavailable
  | GatewayTimeout
  | HTTPVersionNotSupported
  | VariantAlsoNegotiates
  | InsufficientStorage
  | LoopDetected
  | NotExtended
  | NetworkAuthenticationRequired
deriving DecidableEq, Repr

/-- The numeric discriminant of each `HttpStatusCode` variant (the
`*self as usize` of the `Display` impl). -/
def statusValue : HttpStatusCode → Nat
  | .Continue => 100
  | .SwitchingProtocols => 101
  | .Processing => 102
  | .EarlyHints => 103
  | .OK => 200
  | .Created => 201
  | .Accepted => 202
  | .NonAuthoritativeInformation => 203
  | .NoContent => 204
  | .ResetContent => 205
  | .PartialContent => 206
  | .MultiStatus => 207
  | .AlreadyReported => 208
  | .ImUsed => 226
  | .MultipleChoices => 300
  | .MovedPermanently => 301
  | .Found => 302
  | .SeeOther => 303
  | .NotModified => 304
  | .UseProxy => 305
  | .Unused => 306
  | .TemporaryRedirect => 307
  | .PermanentRedirect => 308
  | .BadRequest => 400
  | .Unauthorized => 401
  | .PaymentRequired => 402
  | .Forbidden => 403
  | .NotFound => 404
  | .MethodNotAllowed => 405
  | .NotAcceptable => 406
  | .ProxyAuthenticationRequired => 407
  | .RequestTimeout => 408
  | .Conflict => 409
  | .Gone => 410
  | .LengthRequired => 411
  | .PreconditionFailed => 412
  | .ContentTooLarge => 413
  | .UriTooLong => 414
  | .UnsupportedMediaType => 415
  | .RangeNotSatisfiable => 416
  | .ExpectationFailed => 417
  | .ImATeapot => 418
  | .MisdirectedRequest => 421
  | .UnprocessableContent => 422
  | .Locked => 423
  | .FailedDependency => 424
  | .TooEarly => 425
  | .UpgradeRequired => 426
  | .PreconditionRequired => 428
  | .TooManyRequests => 429
  | .RequestHeaderFieldsTooLarge => 431
  | .UnavailableForLegalReasons => 451
  | .InternalServerError => 500
  | .NotImplemented => 501
  | .BadGateway => 502
  | .ServiceUnavailable => 503
  | .GatewayTimeout => 504
  | .HTTPVersionNotSupported => 505
  | .VariantAlsoNegotiates => 506
  | .InsufficientStorage => 507
  | .LoopDetected => 508
  | .NotExtended => 510
  | .NetworkAuthenticationRequired => 511

/-- `HttpStatusCode::get_readable_name`: the canonical reason phrase. -/
def get_readable_name : HttpStatusCode → String
  | .Continue => "Continue"
  | .SwitchingProtocols => "Switching Protocols"
  | .Processing => "Processing"
  | .EarlyHints => "Early Hints"
  | .OK => "OK"
  | .Created => "Created"
  | .Accepted => "Accepted"
  | .NonAuthoritativeInformation => "Non-Authoritative Information"
  | .NoContent => "No Content"
  | .ResetContent => "Reset Content"
  | .PartialContent => "Partial Content"
  | .MultiStatus => "Multi-Status"
  | .AlreadyReported => "Already Reported"
  | .ImUsed => "IM Used"
  | .MultipleChoices => "Multiple Choices"
  | .MovedPermanently => "Moved Permanently"
  | .Found => "Found"
  | .SeeOther => "See Other"
  | .NotModified => "Not Modified"
  | .UseProxy => "Use Proxy"
  | .Unused => "unused"
  | .TemporaryRedirect => "Temporary Redirect"
  | .PermanentRedirect => "Permanent Redirect"
  | .BadRequest => "Bad Request"
  | .Unauthorized => "Unauthorized"
  | .PaymentRequired => "Payment Required"
  | .Forbidden => "Forbidden"
  | .NotFound => "Not Found"
  | .MethodNotAllowed => "Method Not Allowed"
  | .NotAcceptable => "Not Acceptable"
  | .ProxyAuthenticationRequired => "Proxy Authentication Required"
  | .RequestTimeout => "Request Timeout"
  | .Conflict => "Conflict"
  | .Gone => "Gone"
  | .LengthRequired => "Length Required"
  | .PreconditionFailed => "Precondition Failed"
  | .ContentTooLarge => "Content Too Large"
  | .UriTooLong => "URI Too Long"
  | .UnsupportedMediaType => "Unsupported Media Type"
  | .RangeNotSatisfiable => "Range Not Satisfiable"
  | .ExpectationFailed => "Expectation Failed"
  | .ImATeapot => "I'm a teapot"
  | .MisdirectedRequest => "Misdirected Request"
  | .UnprocessableContent => "Unprocessable Content"
  | .Locked => "Locked"
  | .FailedDependency => "Failed Dependency"
  | .TooEarly => "Too Early"
  | .UpgradeRequired => "Upgrade Required"
  | .PreconditionRequired => "Precondition Required"
  | .TooManyRequests => "Too Many Requests"
  | .RequestHeaderFieldsTooLarge => "Request Header Fields Too Large"
  | .UnavailableForLegalReasons => "Unavailable For Legal Reasons"
  | .InternalServerError => "Internal Server Error"
  | .NotImplemented => "Not Implemented"
  | .BadGateway => "Bad Gateway"
  | .ServiceUnavailable => "Service Unavailable"
  | .GatewayTimeout => "Gateway Timeout"
  | .HTTPVersionNotSupported => "HTTP Version Not Supported"
  | .VariantAlsoNegotiates => "Variant Also Negotiates"
  | .InsufficientStorage => "Insufficient Storage"
  | .LoopDetected => "Loop Detected"
  | .NotExtended => "Not Extended"
  | .NetworkAuthenticationRequired => "Network Authentication Required"

/-- `impl Display for HttpStatusCode`: `"{code} {reason}"`. -/
def HttpStatusCode.display (s : HttpStatusCode) : List Char :=
  natDigits (statusValue s) ++ ' ' :: (get_readable_name s).data

/-- `struct HttpResponse` of `src/models/response.rs`. -/
structure HttpResponse where
  status : HttpStatusCode
  version : HttpVersion
  headers : Headers
  body : String
deriving DecidableEq, Repr

/-- The header block of `impl Display for HttpResponse`: each pair rendered
as `"{key}: {val}\r\n"` in iteration order. -/
def serializeHeaders : Headers → List Char
  | [] => []
  | (k, v) :: rest => k.data ++ ": ".data ++ v.data ++ "\r\n".data ++ serializeHeaders rest

/-- `impl Display for HttpResponse`: `"{version} {status}\r\n"`, the header
block, then `"\r\n{body}"`; a total function — serialization cannot fail. -/
def serializeResponse (r : HttpResponse) : List Char :=
  r.version.display ++ ' ' :: r.status.display ++ "\r\n".data
    ++ serializeHeaders r.headers ++ "\r\n".data ++ r.body.data


theorem digitChar_ascii {d : Nat} (h : d < 10) : isAsciiDigit (Nat.digitChar d) = true := by
  interval_cases d <;> decide

theorem digitChar_toNat {d : Nat} (h : d < 10) : (Nat.digitChar d).toNat = 48 + d := by
  interval_cases d <;> decide

theorem natDigits_ne_nil (n : Nat) : natDigits n ≠ [] := by
  rw [natDigits]
  split <;> simp

theorem natDigits_all_digit (n : Nat) : ∀ c ∈ natDigits n, isAsciiDigit c = true := by
  induction n using Nat.strong_induction_on with
  | _ n ih =>
    rw [natDigits]
    split
    · next h => simpa using digitChar_ascii h
    · next h =>
      intro c hc
      rcases List.mem_append.mp hc with h1 | h1
      · exact ih (n / 10) (Nat.div_lt_self (by omega) (by omega)) c h1
      · simp at h1
        subst h1
        exact digitChar_ascii (Nat.mod_lt _ (by omega))

theorem isAsciiDigit_ne_dot {c : Char} (h : isAsciiDigit c = true) : c ≠ '.' := by
  intro hc
  subst hc
  simp [isAsciiDigit] at h

theorem isAsciiDigit_ne_space {c : Char} (h : isAsciiDigit c = true) : c ≠ ' ' := by
  intro hc
  subst hc
  simp [isAsciiDigit] at h

theorem digitsVal_snoc (xs : List Char) (c : Char) :
    digitsVal (xs ++ [c]) = 10 * digitsVal xs + (c.toNat - 48) := by
  simp [digitsVal, List.foldl_append]

theorem digitsVal_natDigits (n : Nat) : digitsVal (natDigits n) = n := by
  induction n using Nat.strong_induction_on with
  | _ n ih =>
    rw [natDigits]
    split
    · next h =>
      simp [digitsVal, digitChar_toNat h]
    · next h =>
      rw [digitsVal_snoc, ih (n / 10) (Nat.div_lt_self (by omega) (by omega)),
        digitChar_toNat (Nat.mod_lt _ (by omega))]
      omega

theorem takeWhile_app_of_all {p : Char → Bool} {a : List Char}
    (h : ∀ c ∈ a, p c = true) (r : List Char) :
    (a ++ r).takeWhile p = a ++ r.takeWhile p := by
  induction a with
  | nil => simp
  | cons c a ih =>
    simp only [List.cons_append, List.takeWhile]
    rw [h c (by simp)]
    simp only [List.cons.injEq, true_and]
    exact ih (fun c hc => h c (by simp [hc]))

theorem dropWhile_app_of_all {p : Char → Bool} {a : List Char}
    (h : ∀ c ∈ a, p c = true) (r : List Char) :
    (a ++ r).dropWhile p = r.dropWhile p := by
  induction a with
  | nil => simp
  | cons c a ih =>
    simp only [List.cons_append, List.dropWhile]
    rw [h c (by simp)]
    exact ih (fun c hc => h c (by simp [hc]))

theorem splitOnDot_ne_nil (s : List Char) : splitOnDot s ≠ [] := by
  match s with
  | [] => simp [splitOnDot]
  | c :: cs =>
    rw [splitOnDot]
    split
    · simp
    · split <;> simp

theorem splitOnDot_no_dot {s : List Char} (h : ∀ c ∈ s, c ≠ '.') : splitOnDot s = [s] := by
  induction s with
  | nil => rfl
  | cons c cs ih =>
    rw [splitOnDot, if_neg (h c (by simp)), ih (fun c hc => h c (by simp [hc]))]

theorem splitOnDot_app {a b : List Char} (h : ∀ c ∈ a, c ≠ '.') :
    splitOnDot (a ++ '.' :: b) = a :: splitOnDot b := by
  induction a with
  | nil => simp [splitOnDot]
  | cons c cs ih =>
    rw [List.cons_append, splitOnDot, if_neg (h c (by simp)),
      ih (fun c hc => h c (by simp [hc]))]
theorem isAsciiDigit_ne_plus {c : Char} (h : isAsciiDigit c = true) : c ≠ '+' := by
  intro hc
  subst hc
  simp [isAsciiDigit] at h

theorem parseU32_digits {ds : List Char} (hne : ds ≠ [])
    (hall : ∀ c ∈ ds, isAsciiDigit c = true) (hlt : digitsVal ds < 2 ^ 32) :
    parseU32 ds = .ok (digitsVal ds) := by
  match ds with
  | [] => exact absurd rfl hne
  | c :: t =>
    have hc : c ≠ '+' := isAsciiDigit_ne_plus (hall c (by simp))
    have hab : (c :: t).all isAsciiDigit = true := by
      rw [List.all_eq_true]
      exact hall
    simp only [parseU32, if_neg hc, List.isEmpty_cons, hab, Bool.not_true, Bool.false_eq_true,
      if_false, if_pos hlt]

theorem natDigits_ne_dot (n : Nat) : ∀ c ∈ natDigits n, c ≠ '.' :=
  fun c hc => isAsciiDigit_ne_dot (natDigits_all_digit n c hc)

theorem parseU32_natDigits {n : Nat} (h : n < 2 ^ 32) : parseU32 (natDigits n) = .ok n := by
  have hd := parseU32_digits (natDigits_ne_nil n) (natDigits_all_digit n)
    (by rw [digitsVal_natDigits]; exact h)
  rwa [digitsVal_natDigits] at hd

theorem take5_of_app (rest : List Char) : ("HTTP/".data ++ rest).take 5 = "HTTP/".data := by
  rw [List.take_append_eq_append_take]
  have h1 : ("HTTP/".data : List Char).take 5 = "HTTP/".data := by decide
  have h2 : ("HTTP/".data : List Char).length = 5 := by decide
  rw [h1, h2]
  simp

theorem drop5_of_app (rest : List Char) : ("HTTP/".data ++ rest).drop 5 = rest := by
  rw [List.drop_append_eq_append_drop]
  have h1 : ("HTTP/".data : List Char).drop 5 = [] := by decide
  have h2 : ("HTTP/".data : List Char).length = 5 := by decide
  rw [h1, h2]
  simp

theorem from_str_display {v : HttpVersion} (h1 : v.major < 2 ^ 32) (h2 : v.minor < 2 ^ 32) :
    HttpVersion.from_str (HttpVersion.display v) = .ok v := by
  obtain ⟨ma, mi⟩ := v
  simp only at h1 h2
  rw [HttpVersion.display]
  simp only [List.append_assoc]
  rw [HttpVersion.from_str, if_pos (take5_of_app _), drop5_of_app]
  rcases Nat.eq_zero_or_pos mi with hmi | hmi
  · subst hmi
    rw [if_neg (by omega)]
    rw [List.append_nil, splitOnDot_no_dot (natDigits_ne_dot ma)]
    simp only [parseU32_natDigits h1]
  · rw [if_pos hmi]
    rw [splitOnDot_app (natDigits_ne_dot ma), splitOnDot_no_dot (natDigits_ne_dot mi)]
    simp only [parseU32_natDigits h1, parseU32_natDigits h2]

theorem status_token (s : HttpStatusCode) :
    (HttpStatusCode.display s).takeWhile (fun c => c != ' ') = natDigits (statusValue s) := by
  rw [HttpStatusCode.display, takeWhile_app_of_all]
  · simp [List.takeWhile]
  · intro c hc
    have hd := natDigits_all_digit _ c hc
    have := isAsciiDigit_ne_space hd
    simpa using this
/-- Number of entries of the header map carrying key `k`. -/
def countKey (k : String) (m : Headers) : Nat := m.countP (fun p => p.1 == k)

/-- All header values are free of CR and LF characters. -/
def valuesClean (m : Headers) : Bool :=
  m.all (fun p => p.2.data.all (fun c => c != '\r' && c != '\n'))

theorem countKey_cons (k k₀ v₀ : String) (m : Headers) :
    countKey k ((k₀, v₀) :: m) = countKey k m + (if k₀ = k then 1 else 0) := by
  by_cases hk : k₀ = k <;> simp [countKey, List.countP_cons, hk]

theorem countKey_insertH (k v : String) (m : Headers) (h : countKey k m ≤ 1) :
    countKey k (insertH k v m) = 1 := by
  induction m with
  | nil => simp [countKey, insertH]
  | cons p rest ih =>
    obtain ⟨k₀, v₀⟩ := p
    rw [countKey_cons] at h
    by_cases hk : k₀ = k
    · subst hk
      rw [if_pos rfl] at h
      have hins : insertH k₀ v ((k₀, v₀) :: rest) = (k₀, v) :: rest := by simp [insertH]
      rw [hins, countKey_cons, if_pos rfl]
      omega
    · rw [if_neg hk] at h
      have hins : insertH k v ((k₀, v₀) :: rest) = (k₀, v₀) :: insertH k v rest := by
        simp [insertH, hk]
      rw [hins, countKey_cons, if_neg hk]
      rw [ih (by omega)]

theorem lookupH_insertH (k v : String) (m : Headers) :
    lookupH k (insertH k v m) = some v := by
  induction m with
  | nil => simp [lookupH, insertH]
  | cons p rest ih =>
    obtain ⟨k₀, v₀⟩ := p
    by_cases hk : k₀ = k
    · subst hk
      simp [insertH, lookupH]
    · simp [insertH, lookupH, hk, ih]
theorem parse_header_value_clean {cs : List Char} {k v : String} {cs' : List Char}
    (h : parse_header cs = .ok ((k, v), cs')) :
    v.data.all (fun c => c != '\r' && c != '\n') = true := by
  simp only [parse_header, read_while_eq] at h
  rcases hm1 : match_str ": ".data (cs.dropWhile fun c => c != ':') with ⟨b1, cs2⟩
  rw [hm1] at h
  cases b1 with
  | false => simp at h
  | true =>
    simp only [Bool.not_true, Bool.false_eq_true, if_false] at h
    rcases hm2 : match_str "\r\n".data (cs2.dropWhile fun c => c != '\r' && c != '\n') with ⟨b2, cs3⟩
    rw [hm2] at h
    cases b2 with
    | false => simp at h
    | true =>
      simp only [Bool.not_true, Bool.false_eq_true, if_false, Except.ok.injEq, Prod.mk.injEq] at h
      obtain ⟨⟨-, hv⟩, -⟩ := h
      rw [← hv]
      simp only [List.all_eq_true]
      intro c hc
      exact List.mem_takeWhile_imp (p := fun c => c != '\r' && c != '\n') hc

theorem mem_insertH {p : String × String} {k v : String} {m : Headers}
    (h : p ∈ insertH k v m) : p = (k, v) ∨ p ∈ m := by
  induction m with
  | nil => simpa [insertH] using h
  | cons q rest ih =>
    obtain ⟨k₀, v₀⟩ := q
    by_cases hk : k₀ = k
    · subst hk
      have hins : insertH k₀ v ((k₀, v₀) :: rest) = (k₀, v) :: rest := by simp [insertH]
      rw [hins, List.mem_cons] at h
      rcases h with h | h
      · exact Or.inl h
      · exact Or.inr (List.mem_cons_of_mem _ h)
    · have hins : insertH k v ((k₀, v₀) :: rest) = (k₀, v₀) :: insertH k v rest := by
        simp [insertH, hk]
      rw [hins, List.mem_cons] at h
      rcases h with h | h
      · exact Or.inr (by simp [h])
      · rcases ih h with h' | h'
        · exact Or.inl h'
        · exact Or.inr (by simp [h'])

theorem valuesClean_insertH {k v : String} {m : Headers}
    (hm : valuesClean m = true)
    (hv : v.data.all (fun c => c != '\r' && c != '\n') = true) :
    valuesClean (insertH k v m) = true := by
  simp only [valuesClean, List.all_eq_true] at hm ⊢
  intro p hp
  rcases mem_insertH hp with h | h
  · subst h
    simpa [List.all_eq_true] using hv
  · exact hm p h

theorem parse_headers_loop_clean :
    ∀ (n : Nat) (cs : List Char), cs.length ≤ n →
      ∀ (hs m : Headers) (cs' : List Char), valuesClean hs = true →
        parse_headers_loop hs cs = .ok (m, cs') → valuesClean m = true := by
  intro n
  induction n with
  | zero =>
    intro cs hlen hs m cs' hclean h
    have : cs = [] := List.length_eq_zero.mp (by omega)
    subst this
    rw [parse_headers_loop] at h
    simp only [Except.ok.injEq, Prod.mk.injEq] at h
    rw [← h.1]
    exact hclean
  | succ n ih =>
    intro cs hlen hs m cs' hclean h
    match cs with
    | [] =>
      rw [parse_headers_loop] at h
      simp only [Except.ok.injEq, Prod.mk.injEq] at h
      rw [← h.1]
      exact hclean
    | c :: rest =>
      rw [parse_headers_loop] at h
      by_cases hc : c = '\r' ∨ c = '\n'
      · rw [if_pos hc] at h
        simp only [Except.ok.injEq, Prod.mk.injEq] at h
        rw [← h.1]
        exact hclean
      · rw [if_neg hc] at h
        rcases hp : parse_header (c :: rest) with e | ⟨⟨k, v⟩, cs2⟩
        · rw [hp] at h
          simp at h
        · rw [hp] at h
          have hlt := parse_header_len hp
          exact ih cs2 (by simp at hlt hlen ⊢; omega) _ m cs'
            (valuesClean_insertH hclean (parse_header_value_clean hp)) h

theorem takeWhile_stops {p : Char → Bool} {rest : List Char}
    (h : ∀ c ∈ rest.take 1, p c = false) : rest.takeWhile p = [] := by
  match rest with
  | [] => rfl
  | c :: t =>
    have := h c (by simp)
    simp [List.takeWhile, this]

theorem dropWhile_stops {p : Char → Bool} {rest : List Char}
    (h : ∀ c ∈ rest.take 1, p c = false) : rest.dropWhile p = rest := by
  match rest with
  | [] => rfl
  | c :: t =>
    have := h c (by simp)
    simp [List.dropWhile, this]

theorem parse_usize_app (a rest : List Char) (ha : a ≠ [])
    (hall : ∀ c ∈ a, isAsciiDigit c = true)
    (hrest : ∀ c ∈ rest.take 1, isAsciiDigit c = false)
    (hv : digitsVal a < 2 ^ 64) :
    parse_usize (a ++ rest) = .ok (digitsVal a, rest) := by
  simp only [parse_usize, read_while_eq, takeWhile_app_of_all hall,
    dropWhile_app_of_all hall, takeWhile_stops hrest, dropWhile_stops hrest,
    List.append_nil]
  rw [if_neg (by simpa using ha), if_pos hv]

theorem parse_version_app (a b rest : List Char) (ha : a ≠ []) (hb : b ≠ [])
    (halla : ∀ c ∈ a, isAsciiDigit c = true) (hallb : ∀ c ∈ b, isAsciiDigit c = true)
    (hrest : ∀ c ∈ rest.take 1, isAsciiDigit c = false)
    (hva : digitsVal a < 2 ^ 64) (hvb : digitsVal b < 2 ^ 64) :
    parse_version ("HTTP/".data ++ a ++ '.' :: b ++ rest)
      = .ok (⟨digitsVal a, digitsVal b⟩, rest) := by
  have h1 : ("HTTP/".data ++ a ++ '.' :: b ++ rest)
      = "HTTP/".data ++ (a ++ (['.'] ++ (b ++ rest))) := by simp
  have hdot : ∀ c ∈ ((['.'] ++ (b ++ rest)) : List Char).take 1, isAsciiDigit c = false := by
    intro c hc
    simp at hc
    subst hc
    decide
  rw [h1, parse_version, match_str_of_app]
  simp only [parse_usize_app a (['.'] ++ (b ++ rest)) ha halla hdot hva, Bool.not_true,
    Bool.false_eq_true, if_false, match_str_of_app]
  rw [parse_usize_app b rest hb hallb hrest hvb]


theorem parse_body_crlf {cs : List Char} (hne : cs ≠ []) (h2 : cs.take 2 = ['\r', '\n']) :
    parse_body cs = .ok (String.mk (cs.drop 2), []) := by
  match cs with
  | [] => exact absurd rfl hne
  | c :: rest =>
    simp only [List.take, List.cons.injEq] at h2
    obtain ⟨rfl, h2⟩ := h2
    match rest, h2 with
    | c₂ :: rest₂, h2 =>
      simp only [List.take, List.cons.injEq] at h2
      obtain ⟨rfl, -⟩ := h2
      have : ('\r' :: '\n' :: rest₂ : List Char) = "\r\n".data ++ rest₂ := rfl
      simp only [parse_body, this, match_str_of_app]
      simp [List.drop]
    | [], h2 => simp [List.take] at h2

theorem parse_body_fail {cs : List Char} (hne : cs ≠ []) (h2 : cs.take 2 ≠ ['\r', '\n']) :
    parse_body cs = .error .FailedToParseBody := by
  match cs with
  | [] => exact absurd rfl hne
  | c :: rest =>
    rcases hm : match_str "\r\n".data (c :: rest) with ⟨b, cs'⟩
    cases b with
    | true =>
      exfalso
      apply h2
      have := match_str_ok _ _ _ hm
      rw [this]
      rfl
    | false => simp [parse_body, hm]

theorem parse_method_eq (cs : List Char) :
    parse_method cs = (HttpMethod.from_str (String.mk (cs.takeWhile isAsciiUppercase))).map
      (fun m => (m, skip_spaces (cs.dropWhile isAsciiUppercase))) := by
  simp [parse_method, read_while_eq]

theorem from_str_not_mem {s : String}
    (h : s ∉ (["GET", "HEAD", "POST", "PUT", "DELETE", "CONNECT", "OPTIONS",
      "TRACE", "PATCH"] : List String)) :
    HttpMethod.from_str s = .error (.InvalidMethod s) := by
  simp only [List.mem_cons, not_or] at h
  obtain ⟨h1, h2, h3, h4, h5, h6, h7, h8, h9, -⟩ := h
  simp [HttpMethod.from_str, h1, h2, h3, h4, h5, h6, h7, h8, h9]

theorem from_str_ignores_tail (rest : List Char) :
    HttpVersion.from_str ("HTTP/1.1.".data ++ rest) = .ok ⟨1, 1⟩ := by
  have htake : ("HTTP/1.1.".data ++ rest).take 5 = "HTTP/".data := by
    rw [List.take_append_eq_append_take]
    have e1 : ("HTTP/1.1.".data : List Char).take 5 = "HTTP/".data := by decide
    have e2 : ("HTTP/1.1.".data : List Char).length = 9 := by decide
    rw [e1, e2]
    simp
  have hdrop : ("HTTP/1.1.".data ++ rest).drop 5 = "1.1.".data ++ rest := by
    rw [List.drop_append_eq_append_drop]
    have e1 : ("HTTP/1.1.".data : List Char).drop 5 = "1.1.".data := by decide
    have e2 : ("HTTP/1.1.".data : List Char).length = 9 := by decide
    rw [e1, e2]
    simp
  have hshape : ("1.1.".data : List Char) ++ rest = ['1'] ++ '.' :: (['1'] ++ '.' :: rest) := by
    simp
  have hsplit : splitOnDot ("1.1.".data ++ rest) = ['1'] :: ['1'] :: splitOnDot rest := by
    rw [hshape, splitOnDot_app (by decide), splitOnDot_app (by decide)]
  rw [HttpVersion.from_str, if_pos htake, hdrop, hsplit]
  have hp1 : parseU32 ['1'] = .ok 1 := by decide
  simp [hp1]

/-- Claim C1, counterexample: the character-stream `parse_version` of
`src/http.rs` rejects the version token `"HTTP/1"` with
`FailedToParseVersion` instead of parsing it to (1,0): the `"."` is
mandatory there (`if !self.match_str(".") { return Err(..) }`). -/
theorem c1_counterexample :
    parse_version "HTTP/1".data = .error .FailedToParseVersion ∧
    parse_version "HTTP/1".data ≠ .ok (⟨1, 0⟩, []) := by
  constructor <;> decide

/-- Claim C1 (amended): the character-stream version parser accepts the
literal `"HTTP/"`, a maximal run of ASCII digits as major, then a MANDATORY
`"."` followed by a maximal digit run as minor; `"HTTP/1.1"` parses to
(1,1), `"HTTP/2.0"` to (2,0), `"HTTP1.1"` (missing slash) and `"HTTP/1"`
(missing dot) yield `FailedToParseVersion`. -/
theorem c1_version_grammar_amended (a b rest : List Char) (ha : a ≠ []) (hb : b ≠ [])
    (halla : ∀ c ∈ a, isAsciiDigit c = true) (hallb : ∀ c ∈ b, isAsciiDigit c = true)
    (hrest : ∀ c ∈ rest.take 1, isAsciiDigit c = false)
    (hva : digitsVal a < 2 ^ 64) (hvb : digitsVal b < 2 ^ 64) :
    parse_version ("HTTP/".data ++ a ++ '.' :: b ++ rest)
      = .ok (⟨digitsVal a, digitsVal b⟩, rest) ∧
    parse_version "HTTP/1.1".data = .ok (⟨1, 1⟩, []) ∧
    parse_version "HTTP/2.0".data = .ok (⟨2, 0⟩, []) ∧
    parse_version "HTTP1.1".data = .error .FailedToParseVersion ∧
    parse_version "HTTP/1".data = .error .FailedToParseVersion :=
  ⟨parse_version_app a b rest ha hb halla hallb hrest hva hvb,
    by decide, by decide, by decide, by decide⟩

theorem c1_version_grammar_witness :
    digitsVal ['1'] = 1 ∧
    parse_version ("HTTP/".data ++ ['1'] ++ '.' :: ['1'] ++ [])
      = .ok (⟨digitsVal ['1'], digitsVal ['1']⟩, []) :=
  ⟨by decide, (c1_version_grammar_amended ['1'] ['1'] [] (by decide) (by decide) (by decide)
    (by decide) (by decide) (by decide) (by decide)).1⟩

/-- Claim C2, counterexample: a successful parse whose header key contains
the terminator sequence: the key scan of `parse_header` stops only at
`':'`, so `"A\r\nB"` becomes a key. -/
theorem c2_counterexample :
    parse_request "GET / HTTP/1.1\r\nA\r\nB: v\r\n\r\n".data =
      .ok ⟨.GET, "/", ⟨1, 1⟩, [("A\r\nB", "v")], ""⟩ ∧
    List.IsInfix "\r\n".data "A\r\nB".data := by
  constructor
  · simp [parse_request, parse_method, parse_path, parse_version, parse_usize, parse_headers,
      parse_headers_loop, parse_header, parse_body, read_while, match_str, skip_spaces,
      insertH, HttpMethod.from_str, isAsciiUppercase, isAsciiDigit, digitsVal, Except.map]
  · decide

/-- Claim C2 (amended): for every input on which request parsing succeeds,
no header VALUE contains a CR or LF character (in particular no value
contains the terminator sequence); header KEYS, however, may contain the
terminator, since the key scan stops only at `':'`. -/
theorem c2_values_clean (cs : List Char) (r : HttpRequest)
    (h : parse_request cs = .ok r) : valuesClean r.headers = true := by
  simp only [parse_request] at h
  rcases h1 : parse_method cs with e | mp
  · simp only [h1] at h
    exact Except.noConfusion h
  simp only [h1] at h
  obtain ⟨me, cs1⟩ := mp
  rcases h2 : parse_path cs1 with e | pp
  · simp only [h2] at h
    exact Except.noConfusion h
  simp only [h2] at h
  obtain ⟨pa, cs2⟩ := pp
  rcases h3 : parse_version cs2 with e | pv
  · simp only [h3] at h
    exact Except.noConfusion h
  simp only [h3] at h
  obtain ⟨ver, cs3⟩ := pv
  rcases hm : match_str "\r\n".data cs3 with ⟨bh, cs4⟩
  simp only [hm] at h
  cases bh
  · simp at h
  simp only [Bool.not_true, Bool.false_eq_true, if_false] at h
  rcases h5 : parse_headers cs4 with e | ph
  · simp only [h5] at h
    exact Except.noConfusion h
  simp only [h5] at h
  obtain ⟨headers, cs5⟩ := ph
  rcases h6 : parse_body cs5 with e | pb
  · simp only [h6] at h
    exact Except.noConfusion h
  simp only [h6] at h
  obtain ⟨body, cs6⟩ := pb
  simp only [Except.ok.injEq] at h
  subst h
  rw [parse_headers] at h5
  exact parse_headers_loop_clean cs4.length cs4 le_rfl [] headers cs5 rfl h5

theorem c2_values_clean_witness :
    parse_request "GET / HTTP/1.1\r\nHost: x\r\n\r\n".data =
      .ok ⟨.GET, "/", ⟨1, 1⟩, [("Host", "x")], ""⟩ ∧
    valuesClean [("Host", "x")] = true := by
  have hp : parse_request "GET / HTTP/1.1\r\nHost: x\r\n\r\n".data =
      .ok ⟨.GET, "/", ⟨1, 1⟩, [("Host", "x")], ""⟩ := by
    simp [parse_request, parse_method, parse_path, parse_version, parse_usize, parse_headers,
      parse_headers_loop, parse_header, parse_body, read_while, match_str, skip_spaces,
      insertH, HttpMethod.from_str, isAsciiUppercase, isAsciiDigit, digitsVal, Except.map]
  exact ⟨hp, c2_values_clean _ _ hp⟩

/-- Claim C3: for every `HttpVersion` (within the source's `u32` bounds) and
every `HttpStatusCode`, re-parsing the serialized status line recovers both:
the displayed version string parses back via `HttpVersion::from_str` to a
structurally equal version, and the numeric token of the status display
(everything before the first space) has value equal to the status's numeric
code. -/
theorem c3_status_line_roundtrip (v : HttpVersion) (s : HttpStatusCode)
    (h1 : v.major < 2 ^ 32) (h2 : v.minor < 2 ^ 32) :
    HttpVersion.from_str (HttpVersion.display v) = .ok v ∧
    digitsVal ((HttpStatusCode.display s).takeWhile (fun c => c != ' ')) = statusValue s :=
  ⟨from_str_display h1 h2, by rw [status_token, digitsVal_natDigits]⟩

theorem c3_roundtrip_witness :
    (⟨1, 1⟩ : HttpVersion).major < 2 ^ 32 ∧
    HttpVersion.from_str (HttpVersion.display ⟨1, 1⟩) = .ok ⟨1, 1⟩ ∧
    digitsVal ((HttpStatusCode.display .OK).takeWhile (fun c => c != ' ')) = statusValue .OK := by
  refine ⟨by norm_num, ?_, ?_⟩
  · exact (c3_status_line_roundtrip ⟨1, 1⟩ .OK (by norm_num) (by norm_num)).1
  · exact (c3_status_line_roundtrip ⟨1, 1⟩ .OK (by norm_num) (by norm_num)).2

/-- Claim C4: serialization produces exactly the version display, a space,
the numeric status code, a space, the reason phrase, a `"\r\n"`, each header
as `key ++ ": " ++ value ++ "\r\n"` in the map's iteration order, one blank
`"\r\n"`, then the body verbatim with nothing appended; it is a total
function, so it never fails. -/
theorem c4_serialize_format (r : HttpResponse) (k v : String) (hs : Headers) :
    serializeResponse r =
      HttpVersion.display r.version ++ [' '] ++ natDigits (statusValue r.status) ++ [' ']
        ++ (get_readable_name r.status).data ++ ['\r', '\n']
        ++ serializeHeaders r.headers ++ ['\r', '\n'] ++ r.body.data ∧
    serializeHeaders ((k, v) :: hs) =
      k.data ++ [':', ' '] ++ v.data ++ ['\r', '\n'] ++ serializeHeaders hs ∧
    serializeHeaders ([] : Headers) = [] := by
  refine ⟨?_, ?_, rfl⟩
  · simp [serializeResponse, HttpStatusCode.display]
  · simp [serializeHeaders]

/-- Claim C5: after the headers, a nonempty remainder must begin with
`"\r\n"` and everything after it is the body verbatim (no Content-Length
validation — the body function never looks at headers); an empty remainder
gives body `""`; a nonempty remainder not starting with `"\r\n"` is
`FailedToParseBody`. -/
theorem c5_parse_body_boundary (cs : List Char) :
    parse_body [] = .ok ("", []) ∧
    (cs ≠ [] → cs.take 2 = ['\r', '\n'] → parse_body cs = .ok (String.mk (cs.drop 2), [])) ∧
    (cs ≠ [] → cs.take 2 ≠ ['\r', '\n'] → parse_body cs = .error .FailedToParseBody) :=
  ⟨rfl, fun h1 h2 => parse_body_crlf h1 h2, fun h1 h2 => parse_body_fail h1 h2⟩

theorem c5_body_witness :
    ("\r\nhello".data ≠ [] ∧ "\r\nhello".data.take 2 = ['\r', '\n']) ∧
    parse_body "\r\nhello".data = .ok ("hello", []) := by
  refine ⟨⟨by decide, by decide⟩, ?_⟩
  have h := (c5_parse_body_boundary "\r\nhello".data).2.1 (by decide) (by decide)
  rw [h]
  decide

/-- Claim C6: method parsing reads a maximal uppercase-ASCII run and skips
spaces; every token outside the closed nine-method set fails with
`InvalidMethod` carrying the token (never a default), and each of the nine
tokens maps to its enumeration value. -/
theorem c6_method_parsing (s : String) (cs : List Char)
    (hns : s ∉ (["GET", "HEAD", "POST", "PUT", "DELETE", "CONNECT", "OPTIONS",
      "TRACE", "PATCH"] : List String)) :
    HttpMethod.from_str s = .error (.InvalidMethod s) ∧
    parse_method cs = (HttpMethod.from_str (String.mk (cs.takeWhile isAsciiUppercase))).map
      (fun m => (m, skip_spaces (cs.dropWhile isAsciiUppercase))) ∧
    HttpMethod.from_str "GET" = .ok .GET ∧ HttpMethod.from_str "HEAD" = .ok .HEAD ∧
    HttpMethod.from_str "POST" = .ok .POST ∧ HttpMethod.from_str "PUT" = .ok .PUT ∧
    HttpMethod.from_str "DELETE" = .ok .DELETE ∧ HttpMethod.from_str "CONNECT" = .ok .CONNECT ∧
    HttpMethod.from_str "OPTIONS" = .ok .OPTIONS ∧ HttpMethod.from_str "TRACE" = .ok .TRACE ∧
    HttpMethod.from_str "PATCH" = .ok .PATCH :=
  ⟨from_str_not_mem hns, parse_method_eq cs, by decide, by decide, by decide, by decide,
    by decide, by decide, by decide, by decide, by decide⟩

theorem c6_method_witness :
    ("FOO" ∉ (["GET", "HEAD", "POST", "PUT", "DELETE", "CONNECT", "OPTIONS",
      "TRACE", "PATCH"] : List String)) ∧
    HttpMethod.from_str "FOO" = .error (.InvalidMethod "FOO") :=
  ⟨by decide, (c6_method_parsing "FOO" [] (by decide)).1⟩

/-- Claim C7: inserting two values under the same key leaves exactly one
entry for that key, holding the later value (`HashMap` semantics, no
duplicate list); end to end, two `Host` header lines yield the single entry
with the second value. -/
theorem c7_duplicate_keys (k v₁ v₂ : String) (m : Headers) (h : countKey k m ≤ 1) :
    countKey k (insertH k v₂ (insertH k v₁ m)) = 1 ∧
    lookupH k (insertH k v₂ (insertH k v₁ m)) = some v₂ ∧
    parse_headers "Host: a\r\nHost: b\r\n".data = .ok ([("Host", "b")], []) := by
  refine ⟨?_, lookupH_insertH k v₂ _, ?_⟩
  · exact countKey_insertH k v₂ _ (by rw [countKey_insertH k v₁ m h])
  · simp [parse_headers, parse_headers_loop, parse_header, read_while, match_str, insertH]

theorem c7_duplicate_witness :
    countKey "k" ([] : Headers) ≤ 1 ∧
    countKey "k" (insertH "k" "b" (insertH "k" "a" [])) = 1 ∧
    lookupH "k" (insertH "k" "b" (insertH "k" "a" [])) = some "b" := by
  have h := c7_duplicate_keys "k" "a" "b" [] (by decide)
  exact ⟨by decide, h.1, h.2.1⟩

/-- Claim C8: every status code displays as `"<numeric code> <canonical
reason phrase>"`; in particular `NotFound` displays as `"404 Not Found"`
and `ImATeapot` as `"418 I'm a teapot"`; the reason-phrase lookup is a
total function on the enumeration (and never yields the empty string). -/
theorem c8_status_table (s : HttpStatusCode) :
    HttpStatusCode.display s = natDigits (statusValue s) ++ ' ' :: (get_readable_name s).data ∧
    HttpStatusCode.display .NotFound = "404 Not Found".data ∧
    HttpStatusCode.display .ImATeapot = "418 I'm a teapot".data ∧
    get_readable_name s ≠ "" := by
  refine ⟨rfl, ?_, ?_, ?_⟩
  · have h404 : natDigits 404 = ['4', '0', '4'] := by simp [natDigits, Nat.digitChar]
    rw [HttpStatusCode.display]
    show natDigits 404 ++ ' ' :: (get_readable_name .NotFound).data = _
    rw [h404]
    decide
  · have h418 : natDigits 418 = ['4', '1', '8'] := by simp [natDigits, Nat.digitChar]
    rw [HttpStatusCode.display]
    show natDigits 418 ++ ' ' :: (get_readable_name .ImATeapot).data = _
    rw [h418]
    decide
  · cases s <;> decide

/-- Claim C9: request parsing is a total function of its input: for every
finite input it returns either a constructed request or exactly one
classified error value (its Lean embedding is a function, whose header loop
termination is certified by the strictly decreasing remaining input). -/
theorem c9_parse_total (cs : List Char) :
    (∃ r, parse_request cs = .ok r) ∨ (∃ e, parse_request cs = .error e) := by
  rcases h : parse_request cs with e | r
  · exact Or.inr ⟨e, rfl⟩
  · exact Or.inl ⟨r, rfl⟩

/-- Claim C10: the line-based `HttpVersion::from_str` splits the text after
`"HTTP/"` on `"."` and reads only the first two components, silently
ignoring any further dot-separated components: `"HTTP/1.1.9"` parses to
(1,1), and indeed any continuation after `"HTTP/1.1."` is ignored. -/
theorem c10_ignores_extra_components :
    HttpVersion.from_str "HTTP/1.1.9".data = .ok ⟨1, 1⟩ ∧
    ∀ rest : List Char, HttpVersion.from_str ("HTTP/1.1.".data ++ rest) = .ok ⟨1, 1⟩ :=
  ⟨by decide, from_str_ignores_tail⟩
